import Mathlib

/-!
Verification of the Django Test Manager orchestration core.

This file gives a shallow embedding, in Lean, of the parts of the extension's
source that the specification claims talk about:

* the catalog store (`testStateManager.ts`): a map from dotted test
  identifiers to lifecycle statuses;
* the test runner (`testRunner.ts`): command construction
  (`buildTestCommand`), finalization of still-pending statuses after process
  exit (`finalizeNodeStatus`), and the streaming transcript parser
  (`parseResults`), including faithful models of the three JavaScript
  regular expressions it applies to each line;
* discovery registration (`testDiscovery.ts`, `structureTests`): the catalog
  side effect of (re-)discovery;
* the watch-mode debounce machine (`watchMode.ts`);
* the history/analytics engine (`testHistory.ts`): sessions, the per-session
  and whole-history capacity bounds, and the flakiness metric.

Timestamps and durations are modelled as natural numbers (milliseconds);
fractional metrics use `ℚ`.  Mutable singletons become explicit state that is
threaded through the operations.
-/

namespace DjangoTestManager

/-- Lifecycle status of a catalog record (`TestStatus` in `testStateManager.ts`). -/
inductive TestStatus : Type where
  | pending
  | running
  | passed
  | failed
  | skipped
  | aborted
  | unknown
deriving DecidableEq, Repr

/-- Catalog store: the `statuses` map of `TestStateManager`.  `none` means the
identifier has never been registered. -/
def Catalog : Type := String → Option TestStatus

/-- Model of `TestStateManager.getStatus`. -/
def Catalog.getStatus (st : Catalog) (p : String) : Option TestStatus := st p

/-- Model of `TestStateManager.setStatus` (the debounced change event is a UI
side effect and is not part of the state). -/
def Catalog.setStatus (st : Catalog) (p : String) (s : TestStatus) : Catalog :=
  fun q => if q = p then some s else st q

/-- Catalog in which nothing has been registered yet. -/
def Catalog.empty : Catalog := fun _ => none

mutual
/-- Test hierarchy node (`TestNode` in `testDiscovery.ts`).  The optional
`dottedPath` of the source is modelled as a `String`, with `""` playing the
role of the absent/empty (falsy) path, exactly as the runner's
`if (node.dottedPath)` checks treat it. -/
inductive TestNode : Type where
  | mk (dottedPath : String) (children : TestNodeList)
/-- Children list of a `TestNode` (a missing `children` array is `nil`). -/
inductive TestNodeList : Type where
  | nil
  | cons (head : TestNode) (tail : TestNodeList)
end

/-- Dotted path of a node. -/
def TestNode.dottedPath : TestNode → String
  | .mk p _ => p

/-- Children of a node. -/
def TestNode.children : TestNode → TestNodeList
  | .mk _ c => c

/-- Emptiness test for a children list (`!node.children || node.children.length === 0`). -/
def TestNodeList.isEmpty : TestNodeList → Bool
  | .nil => true
  | .cons _ _ => false

/-- Self-update step of `TestRunner.finalizeNodeStatus` (`testRunner.ts` lines
399-421): if the node has a (truthy) dotted path whose record is still
`pending`, resolve it from the exit code and the fail-fast setting. -/
def finalizeSelf (isFailFast success : Bool) (q : String) (st : Catalog) : Catalog :=
  if q ≠ "" then
    if st.getStatus q = some .pending then
      if success then st.setStatus q .passed
      else if isFailFast then st.setStatus q .skipped
      else st.setStatus q .unknown
    else st
  else st

mutual
/-- Model of `TestRunner.finalizeNodeStatus` (`testRunner.ts` lines 386-422):
after the process exits, children are finalized first (the `forEach`), then
the node itself. -/
def finalizeNodeStatus (isFailFast success : Bool) : TestNode → Catalog → Catalog
  | .mk q cs, st =>
    finalizeSelf isFailFast success q (finalizeNodeList isFailFast success cs st)
/-- Sequential finalization of a children list (the `forEach` over
`node.children`). -/
def finalizeNodeList (isFailFast success : Bool) : TestNodeList → Catalog → Catalog
  | .nil, st => st
  | .cons c rest, st =>
    finalizeNodeList isFailFast success rest (finalizeNodeStatus isFailFast success c st)
end

mutual
/-- All dotted paths appearing in a node's subtree (the node itself first). -/
def subtreePaths : TestNode → List String
  | .mk q cs => q :: subtreePathsList cs
/-- All dotted paths appearing in a forest. -/
def subtreePathsList : TestNodeList → List String
  | .nil => []
  | .cons c rest => subtreePaths c ++ subtreePathsList rest
end

/-- Argument-list resolution used by `finalizeNodeStatus`
(`profiles[activeProfile] || config.get('testArguments') || []`): the active
profile's list if the profile exists (a JavaScript array is truthy even when
empty), otherwise the ad-hoc `testArguments` list. -/
def resolveFinalizeArgs (profiles : List (String × List String)) (activeProfile : String)
    (configArgs : List String) : List String :=
  (profiles.lookup activeProfile).getD configArgs

/-- Status a still-pending record is resolved to by finalization. -/
def finalizedStatus (isFailFast success : Bool) : TestStatus :=
  if success then .passed
  else if isFailFast then .skipped
  else .unknown

theorem finalizedStatus_ne_pending (isFailFast success : Bool) :
    finalizedStatus isFailFast success ≠ .pending := by
  cases isFailFast <;> cases success <;> simp [finalizedStatus]

/-- Specification combinator: resolve to `v` every record whose (non-empty)
path lies in `ps` and is still `pending`; leave everything else alone. -/
def resolvePendingAt (ps : List String) (v : TestStatus) (st : Catalog) : Catalog :=
  fun p => if p ∈ ps ∧ p ≠ "" ∧ st p = some .pending then some v else st p

theorem resolvePendingAt_congr (ps ps' : List String) (v : TestStatus) (st : Catalog)
    (h : ∀ p, p ∈ ps ↔ p ∈ ps') :
    resolvePendingAt ps v st = resolvePendingAt ps' v st := by
  funext p
  unfold resolvePendingAt
  exact if_congr (and_congr (h p) Iff.rfl) rfl rfl

theorem resolvePendingAt_comp (ps₁ ps₂ : List String) (v : TestStatus) (st : Catalog)
    (hv : v ≠ .pending) :
    resolvePendingAt ps₂ v (resolvePendingAt ps₁ v st) =
      resolvePendingAt (ps₁ ++ ps₂) v st := by
  funext p
  unfold resolvePendingAt
  by_cases h1 : p ∈ ps₁ ∧ p ≠ "" ∧ st p = some .pending
  · rw [if_pos h1]
    rw [if_neg (fun h => hv (Option.some.inj h.2.2))]
    rw [if_pos ⟨List.mem_append_left _ h1.1, h1.2⟩]
  · rw [if_neg h1]
    by_cases h2 : p ∈ ps₂ ∧ p ≠ "" ∧ st p = some .pending
    · rw [if_pos h2, if_pos ⟨List.mem_append_right _ h2.1, h2.2⟩]
    · rw [if_neg h2, if_neg (by
        intro h
        rcases List.mem_append.mp h.1 with hm | hm
        · exact h1 ⟨hm, h.2⟩
        · exact h2 ⟨hm, h.2⟩)]

theorem finalizeSelf_eq (isFailFast success : Bool) (q : String) (st : Catalog) :
    finalizeSelf isFailFast success q st =
      resolvePendingAt [q] (finalizedStatus isFailFast success) st := by
  have hset :
      (if success then st.setStatus q .passed
       else if isFailFast then st.setStatus q .skipped
       else st.setStatus q .unknown) =
        st.setStatus q (finalizedStatus isFailFast success) := by
    cases success <;> cases isFailFast <;> simp [finalizedStatus]
  funext p
  unfold finalizeSelf resolvePendingAt
  rw [hset]
  by_cases hq : q = ""
  · subst hq
    rw [if_neg (by simp)]
    rw [if_neg (by rintro ⟨h1, h2, -⟩; exact h2 (List.mem_singleton.mp h1))]
  · rw [if_pos hq]
    by_cases hm : st.getStatus q = some .pending
    · rw [if_pos hm]
      unfold Catalog.setStatus
      by_cases hpq : p = q
      · subst hpq
        rw [if_pos rfl, if_pos ⟨List.mem_singleton.mpr rfl, hq, hm⟩]
      · rw [if_neg hpq, if_neg (fun h => hpq (List.mem_singleton.mp h.1))]
    · rw [if_neg hm]
      rw [if_neg (by
        rintro ⟨h1, -, h3⟩
        exact hm (List.mem_singleton.mp h1 ▸ h3))]

mutual
/-- Characterization of `finalizeNodeStatus`: it is exactly the conditional
resolution of every still-pending, non-empty identifier in the target's
subtree. -/
theorem finalize_eq (isFailFast success : Bool) (n : TestNode) (st : Catalog) :
    finalizeNodeStatus isFailFast success n st =
      resolvePendingAt (subtreePaths n) (finalizedStatus isFailFast success) st := by
  match n with
  | .mk q cs =>
    rw [finalizeNodeStatus, finalizeList_eq isFailFast success cs st, finalizeSelf_eq,
      resolvePendingAt_comp _ _ _ _ (finalizedStatus_ne_pending isFailFast success)]
    rw [subtreePaths]
    exact resolvePendingAt_congr _ _ _ _ (by intro p; simp [List.mem_append, or_comm])
/-- Characterization of `finalizeNodeList`, the forest version of
`finalize_eq`. -/
theorem finalizeList_eq (isFailFast success : Bool) (cs : TestNodeList) (st : Catalog) :
    finalizeNodeList isFailFast success cs st =
      resolvePendingAt (subtreePathsList cs) (finalizedStatus isFailFast success) st := by
  match cs with
  | .nil =>
    rw [finalizeNodeList, subtreePathsList]
    funext p
    unfold resolvePendingAt
    by_cases hp : p ∈ ([] : List String) ∧ p ≠ "" ∧ st p = some .pending
    · exact absurd hp.1 (List.not_mem_nil p)
    · rw [if_neg hp]
  | .cons c rest =>
    rw [finalizeNodeList, finalize_eq isFailFast success c st,
      finalizeList_eq isFailFast success rest _,
      resolvePendingAt_comp _ _ _ _ (finalizedStatus_ne_pending isFailFast success),
      subtreePathsList]
end

/-- Concrete target tree used to witness the finalization theorem: a parent
node `"app"` with a single child `"app.tests"`. -/
def c1Node : TestNode := .mk "app" (.cons (.mk "app.tests" .nil) .nil)

/-- Concrete catalog in which only `"app.tests"` is pending. -/
def c1Catalog : Catalog := fun q => if q = "app.tests" then some .pending else none

/-- C1: once the process exits and finalization runs, every identifier in the
target's subtree whose catalog status is still `pending` is resolved: exit
code 0 yields `passed`; a non-zero exit code with `--failfast` in the active
profile's argument list yields `skipped`; a non-zero exit code without
fail-fast yields `unknown`.  Afterwards no identifier of the subtree is left
`pending`. -/
theorem finalization_resolves_pending (profiles : List (String × List String))
    (activeProfile : String) (configArgs : List String) (code : Int)
    (node : TestNode) (st : Catalog) (p : String)
    (hmem : p ∈ subtreePaths node) (hne : p ≠ "") :
    ((finalizeNodeStatus
        ((resolveFinalizeArgs profiles activeProfile configArgs).contains "--failfast")
        (code == 0) node st).getStatus p =
      if st.getStatus p = some .pending
      then some (if code == 0 then .passed
                 else if (resolveFinalizeArgs profiles activeProfile configArgs).contains
                     "--failfast" then .skipped
                 else .unknown)
      else st.getStatus p) ∧
    (finalizeNodeStatus
        ((resolveFinalizeArgs profiles activeProfile configArgs).contains "--failfast")
        (code == 0) node st).getStatus p ≠ some .pending := by
  have hv : (if (code == 0 : Bool) then TestStatus.passed
      else if (resolveFinalizeArgs profiles activeProfile configArgs).contains "--failfast"
        then TestStatus.skipped else TestStatus.unknown) =
      finalizedStatus
        ((resolveFinalizeArgs profiles activeProfile configArgs).contains "--failfast")
        (code == 0) := by
    rw [finalizedStatus]
  rw [hv]
  have hchar : (finalizeNodeStatus
      ((resolveFinalizeArgs profiles activeProfile configArgs).contains "--failfast")
      (code == 0) node st).getStatus p =
      if p ∈ subtreePaths node ∧ p ≠ "" ∧ st.getStatus p = some .pending
      then some (finalizedStatus
        ((resolveFinalizeArgs profiles activeProfile configArgs).contains "--failfast")
        (code == 0))
      else st.getStatus p := by
    rw [finalize_eq]
    rfl
  rw [hchar]
  constructor
  · by_cases hp : st.getStatus p = some .pending
    · rw [if_pos hp, if_pos ⟨hmem, hne, hp⟩]
    · rw [if_neg hp, if_neg (by rintro ⟨-, -, h⟩; exact hp h)]
  · by_cases hp : st.getStatus p = some .pending
    · rw [if_pos ⟨hmem, hne, hp⟩]
      intro h
      exact finalizedStatus_ne_pending _ _ (Option.some.inj h)
    · rw [if_neg (by rintro ⟨-, -, h⟩; exact hp h)]
      exact hp

/-- Witness for `finalization_resolves_pending` at a concrete run: failing
exit code, fail-fast profile active, child still pending. -/
theorem finalization_resolves_pending_witness :
    ("app.tests" ∈ subtreePaths c1Node ∧ "app.tests" ≠ "") ∧
    (((finalizeNodeStatus
        ((resolveFinalizeArgs [("Default", ["--failfast"])] "Default" []).contains "--failfast")
        ((1 : Int) == 0) c1Node c1Catalog).getStatus "app.tests" =
      if c1Catalog.getStatus "app.tests" = some .pending
      then some (if (1 : Int) == 0 then .passed
                 else if (resolveFinalizeArgs [("Default", ["--failfast"])] "Default" []).contains
                     "--failfast" then .skipped
                 else .unknown)
      else c1Catalog.getStatus "app.tests") ∧
    (finalizeNodeStatus
        ((resolveFinalizeArgs [("Default", ["--failfast"])] "Default" []).contains "--failfast")
        ((1 : Int) == 0) c1Node c1Catalog).getStatus "app.tests" ≠ some .pending) :=
  ⟨⟨by decide, by decide⟩,
    finalization_resolves_pending [("Default", ["--failfast"])] "Default" [] 1 c1Node c1Catalog
      "app.tests" (by decide) (by decide)⟩

/-- Character class of the JavaScript `\w` (ASCII letters, digits, underscore). -/
def isWordChar (c : Char) : Bool := c.isAlpha || c.isDigit || c = '_'

/-- Character class of the JavaScript `\s` (the whitespace characters that can
occur in the runner transcripts). -/
def isSpaceChar (c : Char) : Bool :=
  c = ' ' || c = '\t' || c = '\n' || c = '\r' || c = '\x0b' || c = '\x0c'

/-- Character class of `[\w\.]` from the test-start regex. -/
def isPathChar (c : Char) : Bool := isWordChar c || c = '.'

/-- Attempt of the test-start regex `(\w+)\s+\(([\w\.]+)\)` at the head of the
text.  Because each greedy atom is followed by a character its class cannot
match, maximal munch is exact here, so the matcher needs no backtracking. -/
def matchTestStartAt (cs : List Char) : Option (String × String) :=
  let (w, r1) := cs.span isWordChar
  if w.isEmpty then none else
  let (s, r2) := r1.span isSpaceChar
  if s.isEmpty then none else
  match r2 with
  | '(' :: r3 =>
    let (p, r4) := r3.span isPathChar
    if p.isEmpty then none else
    match r4 with
    | ')' :: _ => some (String.mk w, String.mk p)
    | _ => none
  | _ => none

/-- Leftmost-match driver: JavaScript `String.prototype.match` without the
global flag tries the pattern at each successive start position. -/
def firstMatch {α : Type} (m : List Char → Option α) : List Char → Option α
  | [] => none
  | c :: rest =>
    match m (c :: rest) with
    | some r => some r
    | none => firstMatch m rest

/-- Literal-prefix matcher: returns the rest of the input when `lit` is a
prefix of it. -/
def stripLiteral : List Char → List Char → Option (List Char)
  | [], cs => some cs
  | _ :: _, [] => none
  | l :: ls, c :: cs => if c = l then stripLiteral ls cs else none

/-- Ordered alternation over string literals, returning the matched literal
and the rest of the input. -/
def matchAlt : List (List Char) → List Char → Option (String × List Char)
  | [], _ => none
  | a :: rest, cs =>
    match stripLiteral a cs with
    | some r => some (String.mk a, r)
    | none => matchAlt rest cs

/-- Attempt of the result regex `\.\.\.\s+(ok|skipped|FAIL|ERROR)` at the head
of the text, returning the captured outcome word. -/
def matchResultAt (cs : List Char) : Option String :=
  match stripLiteral "...".data cs with
  | none => none
  | some r1 =>
    let (s, r2) := r1.span isSpaceChar
    if s.isEmpty then none
    else
      match matchAlt ["ok".data, "skipped".data, "FAIL".data, "ERROR".data] r2 with
      | some (w, _) => some w
      | none => none

/-- Index of the last `')'` in the text, if any. -/
def lastParenIdx : List Char → Option Nat
  | [] => none
  | c :: rest =>
    match lastParenIdx rest with
    | some k => some (k + 1)
    | none => if c = ')' then some 0 else none

/-- Greedy `(.+)\)` at the head of the text: `.` does not cross line
terminators, and greediness selects the last reachable `')'`; the capture
must be non-empty. -/
def matchDotPlusParen (cs : List Char) : Option (List Char) :=
  let pre := cs.takeWhile (fun c => !(c = '\n' || c = '\r'))
  match lastParenIdx pre with
  | some k => if 0 < k then some (pre.take k) else none
  | none => none

/-- Attempt of the summary regex `(FAIL|ERROR):\s+(\w+)\s+\((.+)\)` at the
head of the text, returning the captured method name and parenthesised path. -/
def matchSummaryAt (cs : List Char) : Option (String × String) :=
  match matchAlt ["FAIL".data, "ERROR".data] cs with
  | none => none
  | some (_, r1) =>
    match r1 with
    | ':' :: r2 =>
      let (s1, r3) := r2.span isSpaceChar
      if s1.isEmpty then none else
      let (w, r4) := r3.span isWordChar
      if w.isEmpty then none else
      let (s2, r5) := r4.span isSpaceChar
      if s2.isEmpty then none else
      match r5 with
      | '(' :: r6 => (matchDotPlusParen r6).map (fun p => (String.mk w, String.mk p))
      | _ => none
    | _ => none

/-- ANSI stripping (`output.replace(/\u001b\[\d+m/g, '')`): a left-to-right
scan removing every escape sequence of the shape `ESC [ digits m`. -/
def stripAnsi (cs : List Char) : List Char :=
  match cs with
  | [] => []
  | '\x1b' :: '[' :: r1 =>
    match h : r1.span Char.isDigit with
    | (ds, 'm' :: r3) =>
      if ds.isEmpty then '\x1b' :: stripAnsi ('[' :: r1)
      else stripAnsi r3
    | _ => '\x1b' :: stripAnsi ('[' :: r1)
  | c :: rest => c :: stripAnsi rest
termination_by cs.length
decreasing_by
  · simp
  · have hspan := List.span_eq_take_drop Char.isDigit r1
    rw [h] at hspan
    have h2 : r1.dropWhile Char.isDigit = 'm' :: r3 := (Prod.mk.injEq _ _ _ _ ▸ hspan).2.symm
    have h3 : ('m' :: r3).length ≤ r1.length := by
      rw [← h2]
      exact (List.dropWhile_suffix Char.isDigit).sublist.length_le
    simp only [List.length_cons] at h3 ⊢
    omega
  · simp
  · simp only [List.length_cons]
    omega

/-- Line splitting as JavaScript's `split('\n')` (carriage returns are kept). -/
def splitLines : List Char → List (List Char)
  | [] => [[]]
  | '\n' :: rest => [] :: splitLines rest
  | c :: rest =>
    match splitLines rest with
    | [] => [[c]]
    | l :: ls => (c :: l) :: ls

/-- Substring test (JavaScript `String.prototype.includes`). -/
def containsSub (needle : List Char) : List Char → Bool
  | [] => needle.isEmpty
  | c :: rest =>
    match stripLiteral needle (c :: rest) with
    | some _ => true
    | none => containsSub needle rest

/-- Suffix test with JavaScript `String.prototype.endsWith` semantics,
computed on the character lists. -/
def strEndsWith (s suffix : String) : Bool :=
  (stripLiteral suffix.data.reverse s.data.reverse).isSome

/-- Qualification of a parsed test path (`parseResults`): the dotted path from
the parentheses, suffixed with `.method` unless it already ends with it or
equals the bare method name. -/
def qualifyPath (methodName pathInParens : String) : String :=
  if strEndsWith pathInParens ("." ++ methodName) || pathInParens == methodName
  then pathInParens
  else pathInParens ++ "." ++ methodName

/-- Parser-visible state of a terminal run: the catalog plus the runner's
`parsingTestPath` register and the failure-message map of the state manager. -/
structure RunnerParseState : Type where
  statuses : Catalog
  failureMessages : String → Option String
  parsingTestPath : Option String

/-- Model of `TestStateManager.setFailureMessage`. -/
def setFailureMessage (m : String → Option String) (p msg : String) : String → Option String :=
  fun q => if q = p then some msg else m q

/-- State with an empty catalog, no failure messages and a clear register. -/
def emptyParseState : RunnerParseState :=
  ⟨Catalog.empty, fun _ => none, none⟩

/-- Per-line classification of `TestRunner.parseResults` (`testRunner.ts`
lines 430-484): a test-start match updates the pending register; a result
marker (when a pending identifier is set) resolves it and clears the
register, returning early; otherwise a summary `FAIL:`/`ERROR:` line sets the
named identifier to `failed` directly. -/
def processLine (ps : RunnerParseState) (line : List Char) : RunnerParseState :=
  let ps1 :=
    match firstMatch matchTestStartAt line with
    | some (methodName, pathInParens) =>
      { ps with parsingTestPath := some (qualifyPath methodName pathInParens) }
    | none => ps
  match firstMatch matchResultAt line, ps1.parsingTestPath with
  | some result, some tp =>
    let status : TestStatus :=
      if result == "skipped" then .skipped
      else if result == "FAIL" || result == "ERROR" then .failed
      else .passed
    let ps2 :=
      if result == "FAIL" || result == "ERROR" then
        { ps1 with failureMessages :=
            setFailureMessage ps1.failureMessages tp "Test Failed. Check terminal for details." }
      else ps1
    { ps2 with statuses := ps2.statuses.setStatus tp status, parsingTestPath := none }
  | _, _ =>
    match firstMatch matchSummaryAt line with
    | some (methodName, pathInParens) =>
      { ps1 with statuses := ps1.statuses.setStatus (qualifyPath methodName pathInParens) .failed }
    | none => ps1

/-- Body of `TestRunner.parseResults` after ANSI stripping: classify every
line, then apply the suite-level summary markers when the observed node is a
leaf. -/
def parseResultsClean (node : TestNode) (ps : RunnerParseState) (clean : List Char) :
    RunnerParseState :=
  let ps1 := (splitLines clean).foldl processLine ps
  if node.children.isEmpty then
    if containsSub "FAILED (failures=".data clean || containsSub "FAILED (errors=".data clean then
      if node.dottedPath ≠ ""
      then { ps1 with statuses := ps1.statuses.setStatus node.dottedPath .failed }
      else ps1
    else if containsSub "OK".data clean then
      if node.dottedPath ≠ ""
      then { ps1 with statuses := ps1.statuses.setStatus node.dottedPath .passed }
      else ps1
    else ps1
  else ps1

/-- Model of `TestRunner.parseResults` (`testRunner.ts` lines 424-504). -/
def parseResults (node : TestNode) (ps : RunnerParseState) (output : String) :
    RunnerParseState :=
  parseResultsClean node ps (stripAnsi output.data)

theorem stripAnsi_no_esc (cs : List Char) (h : ∀ c ∈ cs, c ≠ '\x1b') : stripAnsi cs = cs := by
  induction cs using stripAnsi.induct with
  | case1 => rw [stripAnsi]
  | case2 r1 ds r3 hspan hds ih =>
    exact absurd rfl (h '\x1b' (by simp))
  | case3 r1 ds r3 hspan hds ih =>
    exact absurd rfl (h '\x1b' (by simp))
  | case4 r1 hno ih =>
    exact absurd rfl (h '\x1b' (by simp))
  | case5 c rest hne ih =>
    rw [stripAnsi]
    · rw [ih (fun x hx => h x (List.mem_cons_of_mem _ hx))]
    · intro r1 hc _
      exact h c (List.mem_cons_self _ _) hc

theorem parseResults_of_no_esc (node : TestNode) (ps : RunnerParseState) (output : String)
    (h : ∀ c ∈ output.data, c ≠ '\x1b') :
    parseResults node ps output = parseResultsClean node ps output.data := by
  rw [parseResults, stripAnsi_no_esc _ h]

/-- Node standing for a run whose transcript is being watched without a
dotted path of its own (no leaf-level suite summary applies). -/
def emptyNode : TestNode := .mk "" .nil

/-- Transcript of the two complete per-test lines of the C2 scenario. -/
def c2Output : String :=
  "test_login (users.tests.TestUserViews) ... ok\ntest_logout (users.tests.TestUserViews) ... FAIL\n"

/-- C2: feeding the parser the complete line
`test_login (users.tests.TestUserViews) ... ok` followed by
`test_logout (users.tests.TestUserViews) ... FAIL` sets the catalog status of
`users.tests.TestUserViews.test_login` to `passed` and of
`users.tests.TestUserViews.test_logout` to `failed`; the pending register is
set from the `name (dotted.path)` part, qualified with `.name` when the path
is not already suffixed by it, and is cleared again after each resolved
result marker. -/
theorem parse_transcript_pair :
    (parseResults emptyNode emptyParseState c2Output).statuses.getStatus
        "users.tests.TestUserViews.test_login" = some .passed ∧
    (parseResults emptyNode emptyParseState c2Output).statuses.getStatus
        "users.tests.TestUserViews.test_logout" = some .failed ∧
    (parseResults emptyNode emptyParseState
        "test_login (users.tests.TestUserViews)\n").parsingTestPath =
      some "users.tests.TestUserViews.test_login" ∧
    (parseResults emptyNode emptyParseState
        "test_login (users.tests.TestUserViews) ... ok\n").parsingTestPath = none ∧
    (parseResults emptyNode emptyParseState c2Output).parsingTestPath = none := by
  rw [parseResults_of_no_esc _ _ _ (by decide), parseResults_of_no_esc _ _ _ (by decide),
    parseResults_of_no_esc _ _ _ (by decide)]
  refine ⟨by decide, by decide, by decide, by decide, by decide⟩

/-- C3: feeding the parser only the summary line
`ERROR: test_create_user (users.tests.TestUserModel)` — no prior transcript
line, any value whatsoever in the pending register — sets the catalog status
of `users.tests.TestUserModel.test_create_user` to `failed`; likewise for a
`FAIL:`-prefixed summary line. -/
theorem parse_summary_fallback (reg : Option String) :
    (parseResults emptyNode { emptyParseState with parsingTestPath := reg }
        "ERROR: test_create_user (users.tests.TestUserModel)\n").statuses.getStatus
        "users.tests.TestUserModel.test_create_user" = some .failed ∧
    (parseResults emptyNode { emptyParseState with parsingTestPath := reg }
        "FAIL: test_create_user (users.tests.TestUserModel)\n").statuses.getStatus
        "users.tests.TestUserModel.test_create_user" = some .failed := by
  rw [parseResults_of_no_esc _ _ _ (by decide), parseResults_of_no_esc _ _ _ (by decide)]
  exact ⟨rfl, rfl⟩

/-- Status of a recorded test run (`TestRunRecord.status` in `testHistory.ts`). -/
inductive RunStatus : Type where
  | passed
  | failed
  | skipped
  | error
deriving DecidableEq, Repr

/-- Single test run in history (`TestRunRecord`); times are millisecond
timestamps. -/
structure TestRunRecord : Type where
  id : Nat
  timestamp : Nat
  dottedPath : String
  testName : String
  status : RunStatus
  duration : Nat
  errorMessage : Option String
deriving DecidableEq, Repr

/-- Test session (`TestSession`): one invocation of the test runner. -/
structure TestSession : Type where
  id : Nat
  startTime : Nat
  endTime : Option Nat
  totalTests : Nat
  passed : Nat
  failed : Nat
  skipped : Nat
  duration : Nat
  tests : List TestRunRecord
deriving DecidableEq, Repr

/-- Capacity of the session ring buffer (`MAX_SESSIONS`). -/
def MAX_SESSIONS : Nat := 50

/-- Capacity of a single session's record list (`MAX_TESTS_PER_SESSION`). -/
def MAX_TESTS_PER_SESSION : Nat := 1000

/-- Mutable state of `TestHistoryManager`. -/
structure HistState : Type where
  sessions : List TestSession
  currentSession : Option TestSession
deriving DecidableEq, Repr

/-- History manager with no sessions recorded. -/
def initHistState : HistState := ⟨[], none⟩

/-- Fresh session created by `startSession`: all counters zero, no records. -/
def freshSession (id time : Nat) : TestSession :=
  { id := id, startTime := time, endTime := none, totalTests := 0,
    passed := 0, failed := 0, skipped := 0, duration := 0, tests := [] }

/-- Model of `TestHistoryManager.startSession`; the generated id and the
current time are parameters. -/
def startSession (id time : Nat) (st : HistState) : HistState :=
  { st with currentSession := some (freshSession id time) }

/-- Sealing of the current session inside `endSession`: end time stamped and
duration computed. -/
def sealSession (s : TestSession) (time : Nat) : TestSession :=
  { s with endTime := some time, duration := time - s.startTime }

/-- Model of `TestHistoryManager.endSession` (`testHistory.ts` lines 261-279):
the sealed session is pushed at the front (`unshift`) and the list is trimmed
to the first `MAX_SESSIONS` entries, evicting the oldest sessions. -/
def endSession (time : Nat) (st : HistState) : HistState :=
  match st.currentSession with
  | none => st
  | some s =>
    let sessions := sealSession s time :: st.sessions
    let sessions :=
      if sessions.length > MAX_SESSIONS then sessions.take MAX_SESSIONS else sessions
    { sessions := sessions, currentSession := none }

/-- Model of `TestHistoryManager.recordTest` (`testHistory.ts` lines 284-325):
opens a session if none is open, appends the record, bumps the aggregate
counters (`error` counts as `failed`), then trims the record list to the last
`MAX_TESTS_PER_SESSION` entries (`slice(-MAX_TESTS_PER_SESSION)`). -/
def recordTest (recId recTime : Nat) (dottedPath testName : String) (status : RunStatus)
    (duration : Nat) (errorMessage : Option String) (sessId sessTime : Nat)
    (st : HistState) : HistState :=
  let st1 :=
    match st.currentSession with
    | none => startSession sessId sessTime st
    | some _ => st
  match st1.currentSession with
  | none => st1
  | some s =>
    let record : TestRunRecord :=
      { id := recId, timestamp := recTime, dottedPath := dottedPath, testName := testName,
        status := status, duration := duration, errorMessage := errorMessage }
    let s1 := { s with tests := s.tests ++ [record], totalTests := s.totalTests + 1 }
    let s2 :=
      match status with
      | .passed => { s1 with passed := s1.passed + 1 }
      | .failed => { s1 with failed := s1.failed + 1 }
      | .error => { s1 with failed := s1.failed + 1 }
      | .skipped => { s1 with skipped := s1.skipped + 1 }
    let s3 :=
      if s2.tests.length > MAX_TESTS_PER_SESSION
      then { s2 with tests := s2.tests.drop (s2.tests.length - MAX_TESTS_PER_SESSION) }
      else s2
    { st1 with currentSession := some s3 }

/-- Operations on the history manager, for reasoning about arbitrary
interleavings. -/
inductive HistOp : Type where
  | start (id time : Nat)
  | record (recId recTime : Nat) (dottedPath testName : String) (status : RunStatus)
      (duration : Nat) (errorMessage : Option String) (sessId sessTime : Nat)
  | stop (time : Nat)
deriving DecidableEq, Repr

/-- Application of one history operation. -/
def applyHistOp (st : HistState) : HistOp → HistState
  | .start id time => startSession id time st
  | .record recId recTime dottedPath testName status duration errorMessage sessId sessTime =>
    recordTest recId recTime dottedPath testName status duration errorMessage sessId sessTime st
  | .stop time => endSession time st

/-- Application of a sequence of history operations. -/
def runHistOps (st : HistState) (ops : List HistOp) : HistState :=
  ops.foldl applyHistOp st

theorem sessions_length_le_applyHistOp (st : HistState) (op : HistOp)
    (h : st.sessions.length ≤ MAX_SESSIONS) :
    (applyHistOp st op).sessions.length ≤ MAX_SESSIONS := by
  match op with
  | .start id time => exact h
  | .record recId recTime dp tn status dur em sid stime =>
    unfold applyHistOp recordTest
    match hc : st.currentSession with
    | none => simpa [startSession, hc] using h
    | some s => simpa [hc] using h
  | .stop time =>
    unfold applyHistOp endSession
    match hc : st.currentSession with
    | none => exact h
    | some s =>
      simp only
      by_cases hlen : (sealSession s time :: st.sessions).length > MAX_SESSIONS
      · rw [if_pos hlen]
        simp [List.length_take]
      · rw [if_neg hlen]
        omega

theorem sessions_length_le_runHistOps (st : HistState) (ops : List HistOp)
    (h : st.sessions.length ≤ MAX_SESSIONS) :
    (runHistOps st ops).sessions.length ≤ MAX_SESSIONS := by
  induction ops generalizing st with
  | nil => exact h
  | cons op rest ih =>
    exact ih _ (sessions_length_le_applyHistOp st op h)

/-- C4: the session history never exceeds `MAX_SESSIONS` under any sequence
of operations starting from the empty manager, and sealing a session while at
capacity keeps the new session plus the `MAX_SESSIONS - 1` most recent old
ones, evicting exactly the oldest (the list is newest-first, so the dropped
entry is the last one). -/
theorem history_session_capacity (ops : List HistOp) (st : HistState) (s : TestSession)
    (t : Nat) (hcur : st.currentSession = some s)
    (hfull : st.sessions.length = MAX_SESSIONS) :
    (runHistOps initHistState ops).sessions.length ≤ MAX_SESSIONS ∧
    (endSession t st).sessions = sealSession s t :: st.sessions.take (MAX_SESSIONS - 1) := by
  constructor
  · exact sessions_length_le_runHistOps _ _ (by simp [initHistState])
  · unfold endSession
    rw [hcur]
    simp only
    rw [if_pos (by simp only [List.length_cons, hfull]; omega)]
    have h50 : MAX_SESSIONS = (MAX_SESSIONS - 1) + 1 := by rw [MAX_SESSIONS]
    rw [h50, List.take_succ_cons]
    norm_num

/-- History manager at session capacity with one session open, used to
witness `history_session_capacity`. -/
def c4State : HistState :=
  ⟨List.replicate MAX_SESSIONS (freshSession 0 0), some (freshSession 1 5)⟩

/-- Witness for `history_session_capacity`: sealing the 51st session at
capacity. -/
theorem history_session_capacity_witness :
    (c4State.currentSession = some (freshSession 1 5) ∧
      c4State.sessions.length = MAX_SESSIONS) ∧
    ((runHistOps initHistState [.start 7 0, .stop 9]).sessions.length ≤ MAX_SESSIONS ∧
      (endSession 9 c4State).sessions =
        sealSession (freshSession 1 5) 9 :: c4State.sessions.take (MAX_SESSIONS - 1)) :=
  ⟨⟨rfl, by simp [c4State]⟩,
    history_session_capacity [.start 7 0, .stop 9] c4State (freshSession 1 5) 9 rfl
      (by simp [c4State])⟩

/-- Number of records in the currently open session (0 when none is open). -/
def currentTestsLen (st : HistState) : Nat :=
  match st.currentSession with
  | none => 0
  | some s => s.tests.length

theorem currentTestsLen_applyHistOp (st : HistState) (op : HistOp) :
    currentTestsLen (applyHistOp st op) ≤ MAX_TESTS_PER_SESSION := by
  match op with
  | .start id time => simp [applyHistOp, startSession, currentTestsLen, freshSession]
  | .stop time =>
    unfold applyHistOp endSession
    match hc : st.currentSession with
    | none => simp [currentTestsLen, hc]
    | some s => simp [currentTestsLen]
  | .record recId recTime dp tn status dur em sid stime =>
    have hgoal : ∀ s2 : TestSession,
        (if s2.tests.length > MAX_TESTS_PER_SESSION
         then { s2 with tests := s2.tests.drop (s2.tests.length - MAX_TESTS_PER_SESSION) }
         else s2).tests.length ≤ MAX_TESTS_PER_SESSION := by
      intro s2
      by_cases htrim : s2.tests.length > MAX_TESTS_PER_SESSION
      · rw [if_pos htrim]
        simp only [List.length_drop]
        omega
      · rw [if_neg htrim]
        omega
    unfold applyHistOp recordTest
    match hc : st.currentSession with
    | none =>
      simp only [hc, startSession, currentTestsLen]
      cases status <;> exact hgoal _
    | some s =>
      simp only [hc, currentTestsLen]
      cases status <;> exact hgoal _

theorem currentTestsLen_runHistOps (st : HistState) (ops : List HistOp)
    (h : currentTestsLen st ≤ MAX_TESTS_PER_SESSION) :
    currentTestsLen (runHistOps st ops) ≤ MAX_TESTS_PER_SESSION := by
  induction ops generalizing st with
  | nil => exact h
  | cons op rest ih => exact ih _ (currentTestsLen_applyHistOp st op)

/-- Record built by one `recordTest` call. -/
def mkRunRecord (recId recTime : Nat) (dp tn : String) (status : RunStatus) (dur : Nat)
    (em : Option String) : TestRunRecord :=
  ⟨recId, recTime, dp, tn, status, dur, em⟩

/-- C10: the open session's record list never exceeds
`MAX_TESTS_PER_SESSION` entries under any operation sequence, and one
`recordTest` call appends the new record, drops the oldest records when the
limit is exceeded (a `drop` at the front of the chronological list), and
bumps the aggregate counters for the recorded outcome regardless of the
trimming (`error` counts towards `failed`). -/
theorem session_records_capped (ops : List HistOp) (st : HistState) (s : TestSession)
    (recId recTime : Nat) (dp tn : String) (status : RunStatus) (dur : Nat)
    (em : Option String) (sessId sessTime : Nat)
    (hcur : st.currentSession = some s) :
    currentTestsLen (runHistOps initHistState ops) ≤ MAX_TESTS_PER_SESSION ∧
    (recordTest recId recTime dp tn status dur em sessId sessTime st).currentSession =
      some { s with
        totalTests := s.totalTests + 1,
        passed := s.passed + (if status = .passed then 1 else 0),
        failed := s.failed + (if status = .failed ∨ status = .error then 1 else 0),
        skipped := s.skipped + (if status = .skipped then 1 else 0),
        tests :=
          if s.tests.length + 1 > MAX_TESTS_PER_SESSION
          then (s.tests ++ [mkRunRecord recId recTime dp tn status dur em]).drop
            (s.tests.length + 1 - MAX_TESTS_PER_SESSION)
          else s.tests ++ [mkRunRecord recId recTime dp tn status dur em] } := by
  constructor
  · exact currentTestsLen_runHistOps _ _ (by simp [initHistState, currentTestsLen])
  · unfold recordTest
    rw [hcur]
    simp only
    rw [hcur]
    cases status <;>
      (simp only [mkRunRecord, List.length_append, List.length_cons, List.length_nil]
       split <;> simp_all)

/-- History manager with one freshly opened session, used to witness
`session_records_capped`. -/
def c10State : HistState := ⟨[], some (freshSession 2 0)⟩

/-- Witness for `session_records_capped`: recording one passed test into a
fresh session. -/
theorem session_records_capped_witness :
    (c10State.currentSession = some (freshSession 2 0)) ∧
    (currentTestsLen (runHistOps initHistState []) ≤ MAX_TESTS_PER_SESSION ∧
      (recordTest 3 10 "users.tests.T.test_a" "test_a" .passed 12 none 4 10
          c10State).currentSession =
        some { freshSession 2 0 with
          totalTests := (freshSession 2 0).totalTests + 1,
          passed := (freshSession 2 0).passed +
            (if RunStatus.passed = RunStatus.passed then 1 else 0),
          failed := (freshSession 2 0).failed +
            (if RunStatus.passed = RunStatus.failed ∨ RunStatus.passed = RunStatus.error
             then 1 else 0),
          skipped := (freshSession 2 0).skipped +
            (if RunStatus.passed = RunStatus.skipped then 1 else 0),
          tests :=
            if (freshSession 2 0).tests.length + 1 > MAX_TESTS_PER_SESSION
            then ((freshSession 2 0).tests ++
                [mkRunRecord 3 10 "users.tests.T.test_a" "test_a" .passed 12 none]).drop
              ((freshSession 2 0).tests.length + 1 - MAX_TESTS_PER_SESSION)
            else (freshSession 2 0).tests ++
              [mkRunRecord 3 10 "users.tests.T.test_a" "test_a" .passed 12 none] }) :=
  ⟨rfl, session_records_capped [] c10State (freshSession 2 0) 3 10 "users.tests.T.test_a"
    "test_a" .passed 12 none 4 10 rfl⟩

/-- Stable insertion into a timestamp-descending list: an element coming
later in the original order is placed after every strictly more recent
element and before equal-timestamp ones, matching the stable
`sort((a, b) => b.timestamp - a.timestamp)` of the source. -/
def insertByTimestampDesc (r : TestRunRecord) : List TestRunRecord → List TestRunRecord
  | [] => [r]
  | x :: xs =>
    if x.timestamp > r.timestamp then x :: insertByTimestampDesc r xs
    else r :: x :: xs

/-- Stable sort by descending timestamp. -/
def sortByTimestampDesc : List TestRunRecord → List TestRunRecord
  | [] => []
  | x :: xs => insertByTimestampDesc x (sortByTimestampDesc xs)

/-- Model of `TestHistoryManager.getTestHistory` (`testHistory.ts` lines
344-356): all records of the identifier across all retained sessions, most
recent first. -/
def getTestHistory (dottedPath : String) (sessions : List TestSession) :
    List TestRunRecord :=
  sortByTimestampDesc
    (sessions.foldl (fun acc s => acc ++ s.tests.filter (fun t => t.dottedPath == dottedPath)) [])

/-- Normalization used by the flakiness loop: `status === 'passed' ? 'passed'
: 'failed'`. -/
def isPassedNorm (r : TestRunRecord) : Bool := r.status == RunStatus.passed

/-- Number of pass/fail transitions between adjacent records (the
`for (let i = 1; ...)` loop of `getTestFlakiness`). -/
def countTransitions : List TestRunRecord → Nat
  | a :: b :: rest =>
    (if isPassedNorm a != isPassedNorm b then 1 else 0) + countTransitions (b :: rest)
  | _ => 0

/-- Model of `TestHistoryManager.getTestFlakiness` (`testHistory.ts` lines
361-375): 0 with fewer than three records, otherwise the transition count
divided by `history.length - 1` (JavaScript number arithmetic, modelled
in `ℚ`). -/
def getTestFlakiness (dottedPath : String) (sessions : List TestSession) : ℚ :=
  if (getTestHistory dottedPath sessions).length < 3 then 0
  else (countTransitions (getTestHistory dottedPath sessions) : ℚ) /
    (((getTestHistory dottedPath sessions).length : ℚ) - 1)

theorem countTransitions_cons_cons (a c : TestRunRecord) (rest : List TestRunRecord) :
    countTransitions (a :: c :: rest) =
      (if isPassedNorm a != isPassedNorm c then 1 else 0) + countTransitions (c :: rest) := rfl

theorem countTransitions_eq_zero (l : List TestRunRecord) (b : Bool)
    (h : ∀ r ∈ l, isPassedNorm r = b) : countTransitions l = 0 := by
  match l with
  | [] => rfl
  | [a] => rfl
  | a :: c :: rest =>
    have ha : isPassedNorm a = b := h a (by simp)
    have hc : isPassedNorm c = b := h c (by simp)
    have ih := countTransitions_eq_zero (c :: rest) b
      (fun r hr => h r (List.mem_cons_of_mem _ hr))
    rw [countTransitions_cons_cons, ha, hc, ih]
    simp

theorem countTransitions_append_singleton (l : List TestRunRecord) (x : TestRunRecord) :
    countTransitions (l ++ [x]) =
      countTransitions l +
        (match l.getLast? with
         | none => 0
         | some a => if isPassedNorm a != isPassedNorm x then 1 else 0) := by
  match l with
  | [] => rfl
  | [a] =>
    show (if isPassedNorm a != isPassedNorm x then 1 else 0) + 0 =
      0 + (if isPassedNorm a != isPassedNorm x then 1 else 0)
    omega
  | a :: c :: rest =>
    have hstep : countTransitions ((a :: c :: rest) ++ [x]) =
        (if isPassedNorm a != isPassedNorm c then 1 else 0) +
          countTransitions ((c :: rest) ++ [x]) := rfl
    rw [hstep, countTransitions_append_singleton (c :: rest) x,
      countTransitions_cons_cons, List.getLast?_cons_cons]
    omega

theorem countTransitions_reverse (l : List TestRunRecord) :
    countTransitions l.reverse = countTransitions l := by
  match l with
  | [] => rfl
  | a :: rest =>
    rw [List.reverse_cons, countTransitions_append_singleton,
      countTransitions_reverse rest]
    match rest with
    | [] => rfl
    | c :: rest2 =>
      have hhead : (c :: rest2).reverse.getLast? = some c := by
        rw [List.getLast?_reverse]
        rfl
      simp only [hhead]
      rw [countTransitions_cons_cons]
      have hsymm : (isPassedNorm c != isPassedNorm a) = (isPassedNorm a != isPassedNorm c) := by
        cases isPassedNorm c <;> cases isPassedNorm a <;> rfl
      rw [hsymm]
      omega

/-- Five-record history of one identifier alternating
passed/failed/passed/failed/passed over increasing timestamps. -/
def c6Session : TestSession :=
  { freshSession 9 0 with
      totalTests := 5, passed := 3, failed := 2,
      tests :=
        [mkRunRecord 1 1 "pkg.T.test_flaky" "test_flaky" .passed 5 none,
         mkRunRecord 2 2 "pkg.T.test_flaky" "test_flaky" .failed 5 none,
         mkRunRecord 3 3 "pkg.T.test_flaky" "test_flaky" .passed 5 none,
         mkRunRecord 4 4 "pkg.T.test_flaky" "test_flaky" .failed 5 none,
         mkRunRecord 5 5 "pkg.T.test_flaky" "test_flaky" .passed 5 none] }

/-- C6: for every identifier and session history, unconditionally, the
flakiness score is the number of pass/fail transitions between adjacent
records of the chronologically sorted history divided by (record count − 1)
when at least three records exist, and 0 with fewer than three records — the
transition count is invariant under reversing the chronological order, so
counting over the code's newest-first history equals counting over
oldest-first; moreover a history on which the pass/fail normalization is
constant (always green or always red) scores 0; and the five-record
alternating history scores exactly 1. -/
theorem flakiness_transition_ratio (p : String) (sessions : List TestSession) :
    (getTestFlakiness p sessions =
      if (getTestHistory p sessions).length < 3 then 0
      else (countTransitions (getTestHistory p sessions) : ℚ) /
        ((((getTestHistory p sessions).length - 1 : Nat)) : ℚ)) ∧
    (∀ b : Bool, (∀ r ∈ getTestHistory p sessions, isPassedNorm r = b) →
      getTestFlakiness p sessions = 0) ∧
    (∀ l : List TestRunRecord, countTransitions l.reverse = countTransitions l) ∧
    getTestFlakiness "pkg.T.test_flaky" [c6Session] = 1 := by
  have hconcrete : getTestFlakiness "pkg.T.test_flaky" [c6Session] = 1 := by
    have hh : getTestHistory "pkg.T.test_flaky" [c6Session] =
        [mkRunRecord 5 5 "pkg.T.test_flaky" "test_flaky" .passed 5 none,
         mkRunRecord 4 4 "pkg.T.test_flaky" "test_flaky" .failed 5 none,
         mkRunRecord 3 3 "pkg.T.test_flaky" "test_flaky" .passed 5 none,
         mkRunRecord 2 2 "pkg.T.test_flaky" "test_flaky" .failed 5 none,
         mkRunRecord 1 1 "pkg.T.test_flaky" "test_flaky" .passed 5 none] := by decide
    have hct : countTransitions (getTestHistory "pkg.T.test_flaky" [c6Session]) = 4 := by
      rw [hh]
      decide
    have hlen : (getTestHistory "pkg.T.test_flaky" [c6Session]).length = 5 := by
      rw [hh]
      rfl
    rw [getTestFlakiness, hct, hlen]
    norm_num
  refine ⟨?_, ?_, countTransitions_reverse, hconcrete⟩
  · rw [getTestFlakiness]
    by_cases hlen : (getTestHistory p sessions).length < 3
    · rw [if_pos hlen, if_pos hlen]
    · rw [if_neg hlen, if_neg hlen]
      have h1 : (1 : Nat) ≤ (getTestHistory p sessions).length := by omega
      rw [Nat.cast_sub h1]
      norm_num
  · intro b hall
    rw [getTestFlakiness]
    by_cases hlen : (getTestHistory p sessions).length < 3
    · rw [if_pos hlen]
    · rw [if_neg hlen]
      rw [countTransitions_eq_zero _ b hall]
      norm_num

/-- Three-record always-green history used to witness
`flakiness_transition_ratio`. -/
def c6GreenSession : TestSession :=
  { freshSession 8 0 with
      totalTests := 3, passed := 3,
      tests :=
        [mkRunRecord 1 1 "pkg.T.test_ok" "test_ok" .passed 5 none,
         mkRunRecord 2 2 "pkg.T.test_ok" "test_ok" .passed 5 none,
         mkRunRecord 3 3 "pkg.T.test_ok" "test_ok" .passed 5 none] }

/-- Witness for `flakiness_transition_ratio` at a mixed (genuinely flaky)
history: the ratio formula instantiated at the alternating five-record
session, plus the always-green instance of the constant-history clause with
its hypothesis discharged concretely. -/
theorem flakiness_transition_ratio_witness :
    (∀ r ∈ getTestHistory "pkg.T.test_ok" [c6GreenSession], isPassedNorm r = true) ∧
    ((getTestFlakiness "pkg.T.test_flaky" [c6Session] =
      if (getTestHistory "pkg.T.test_flaky" [c6Session]).length < 3 then 0
      else (countTransitions (getTestHistory "pkg.T.test_flaky" [c6Session]) : ℚ) /
        ((((getTestHistory "pkg.T.test_flaky" [c6Session]).length - 1 : Nat)) : ℚ)) ∧
    getTestFlakiness "pkg.T.test_ok" [c6GreenSession] = 0 ∧
    (∀ l : List TestRunRecord, countTransitions l.reverse = countTransitions l) ∧
    getTestFlakiness "pkg.T.test_flaky" [c6Session] = 1) :=
  ⟨by decide,
    (flakiness_transition_ratio "pkg.T.test_flaky" [c6Session]).1,
    (flakiness_transition_ratio "pkg.T.test_ok" [c6GreenSession]).2.1 true (by decide),
    (flakiness_transition_ratio "pkg.T.test_flaky" [c6Session]).2.2.1,
    (flakiness_transition_ratio "pkg.T.test_flaky" [c6Session]).2.2.2⟩

/-- Catalog side effect of `TestDiscovery.structureTests` for one discovered
file node (`testDiscovery.ts` lines 246-251): a record is registered with
status `unknown` only when the identifier has no record yet (`!getStatus`
is true exactly for an unregistered identifier, every stored status string
being truthy). -/
def registerDiscoveredNode (st : Catalog) (n : TestNode) : Catalog :=
  if n.dottedPath ≠ "" then
    if st.getStatus n.dottedPath = none
    then st.setStatus n.dottedPath .unknown
    else st
  else st

/-- Catalog side effect of `TestDiscovery.structureTests` over the list of
discovered file nodes. -/
def structureTestsRegister (nodes : List TestNode) (st : Catalog) : Catalog :=
  nodes.foldl registerDiscoveredNode st

theorem registerNode_getStatus (st : Catalog) (n : TestNode) (p : String) :
    (registerDiscoveredNode st n).getStatus p =
      if p = n.dottedPath ∧ p ≠ "" ∧ st.getStatus p = none
      then some .unknown
      else st.getStatus p := by
  unfold registerDiscoveredNode
  by_cases hq : n.dottedPath = ""
  · rw [if_neg (by simp [hq])]
    rw [if_neg (by rintro ⟨h1, h2, -⟩; exact h2 (h1.trans hq))]
  · rw [if_pos hq]
    by_cases hm : st.getStatus n.dottedPath = none
    · rw [if_pos hm]
      unfold Catalog.setStatus Catalog.getStatus
      by_cases hpq : p = n.dottedPath
      · subst hpq
        show (if n.dottedPath = n.dottedPath then some TestStatus.unknown else st n.dottedPath) = _
        rw [if_pos rfl, if_pos ⟨rfl, hq, hm⟩]
      · show (if p = n.dottedPath then some TestStatus.unknown else st p) = _
        rw [if_neg hpq, if_neg (fun h => hpq h.1)]
    · rw [if_neg hm, if_neg (by rintro ⟨h1, -, h3⟩; exact hm (h1 ▸ h3))]

/-- C5: discovery registers an `unknown` record only for identifiers that
have no record yet, so it never changes an existing record; in particular
every record whose status is not `unknown` (and indeed every existing
record) keeps exactly its previous status across (re-)discovery. -/
theorem discovery_registers_only_new (nodes : List TestNode) (st : Catalog) (p : String) :
    (structureTestsRegister nodes st).getStatus p =
      if p ∈ nodes.map TestNode.dottedPath ∧ p ≠ "" ∧ st.getStatus p = none
      then some .unknown
      else st.getStatus p := by
  induction nodes generalizing st with
  | nil =>
    rw [if_neg (by rintro ⟨h1, -, -⟩; exact List.not_mem_nil p (by simpa using h1))]
    rfl
  | cons n rest ih =>
    show (structureTestsRegister rest (registerDiscoveredNode st n)).getStatus p = _
    rw [ih, registerNode_getStatus]
    by_cases h1 : p = n.dottedPath ∧ p ≠ "" ∧ st.getStatus p = none
    · rw [if_pos h1]
      rw [if_neg (by rintro ⟨-, -, h⟩; exact Option.some_ne_none _ h)]
      rw [if_pos ⟨by rw [List.map_cons, h1.1]; exact List.mem_cons_self _ _, h1.2⟩]
    · rw [if_neg h1]
      by_cases h2 : p ∈ rest.map TestNode.dottedPath ∧ p ≠ "" ∧ st.getStatus p = none
      · rw [if_pos h2,
          if_pos ⟨by rw [List.map_cons]; exact List.mem_cons_of_mem _ h2.1, h2.2⟩]
      · rw [if_neg h2]
        rw [if_neg (by
          rintro ⟨hm, hne, hst⟩
          rw [List.map_cons] at hm
          rcases List.mem_cons.mp hm with hc | hc
          · exact h1 ⟨hc, hne, hst⟩
          · exact h2 ⟨hc, hne, hst⟩)]

/-- Argument-list resolution of `TestRunner.buildTestCommand`
(`testRunner.ts` lines 245-257): the ad-hoc `testArguments` list when
non-empty, otherwise the active profile's list, otherwise empty. -/
def resolveRunArgs (configArgs : List String) (profiles : List (String × List String))
    (activeProfile : String) : List String :=
  if configArgs.length > 0 then configArgs
  else (profiles.lookup activeProfile).getD []

/-- Argument post-processing of `TestRunner.buildTestCommand`
(`testRunner.ts` lines 259-274): drop every `--buffer`/`-b`, force a
verbosity flag (`-v 2`) when none is present, force `--noinput` when no
no-input flag is present. -/
def buildTestArgs (rawTestArgs : List String) : List String :=
  let testArgs := rawTestArgs.filter (fun a => !(a == "--buffer" || a == "-b"))
  let testArgs :=
    if !(testArgs.contains "-v" || testArgs.contains "--verbose")
    then testArgs ++ ["-v", "2"] else testArgs
  if !(testArgs.contains "--noinput" || testArgs.contains "--no-input")
  then testArgs ++ ["--noinput"] else testArgs

/-- Model of `TestRunner.buildTestCommand` under the default command
template `${pythonPath} ${managePyPath} test ${testPath} ${testArguments}`:
the placeholders are substituted and the processed argument list is joined
with spaces. -/
def buildTestCommand (pythonPath managePyPath testPaths : String)
    (configArgs : List String) (profiles : List (String × List String))
    (activeProfile : String) : String :=
  pythonPath ++ " " ++ managePyPath ++ " test " ++ testPaths ++ " " ++
    " ".intercalate (buildTestArgs (resolveRunArgs configArgs profiles activeProfile))

theorem contains_filter_of_pred (l : List String) (pred : String → Bool) (a : String)
    (ha : pred a = true) :
    (l.filter pred).contains a = l.contains a := by
  induction l with
  | nil => rfl
  | cons x xs ih =>
    rw [List.filter_cons]
    by_cases hx : pred x = true
    · rw [if_pos hx, List.contains_cons, List.contains_cons, ih]
    · rw [if_neg hx, ih, List.contains_cons]
      have hax : (a == x) = false := by
        by_cases haxx : a = x
        · exact absurd (haxx ▸ ha) hx
        · exact beq_false_of_ne haxx
      rw [hax, Bool.false_or]

theorem contains_append_singletons (l : List String) (x y a : String) :
    (l ++ [x, y]).contains a = (l.contains a || a == x || a == y) := by
  induction l with
  | nil => rw [List.nil_append, List.contains_cons, List.contains_cons]; simp
  | cons c cs ih =>
    rw [List.cons_append, List.contains_cons, ih, List.contains_cons]
    cases a == c <;> cases a == x <;> cases a == y <;> cases cs.contains a <;> rfl

theorem buildTestArgs_char (raw : List String) :
    buildTestArgs raw =
      ((raw.filter
          (fun a => !(a == "--buffer" || a == "-b"))) ++
        (if raw.contains "-v" ||
            raw.contains "--verbose"
         then [] else ["-v", "2"])) ++
      (if raw.contains "--noinput" ||
          raw.contains "--no-input"
       then [] else ["--noinput"]) := by
  have h1 : ∀ a : String, (!(a == "--buffer" || a == "-b")) = true →
      (raw.filter
          (fun x => !(x == "--buffer" || x == "-b"))).contains a =
        raw.contains a :=
    fun a ha => contains_filter_of_pred _ _ a ha
  have e1 : ("--noinput" == "-v") = false := by decide
  have e2 : ("--noinput" == "2") = false := by decide
  have e3 : ("--no-input" == "-v") = false := by decide
  have e4 : ("--no-input" == "2") = false := by decide
  rcases Bool.eq_false_or_eq_true
      (raw.contains "-v" ||
        raw.contains "--verbose") with hv | hv <;>
    rcases Bool.eq_false_or_eq_true
        (raw.contains "--noinput" ||
          raw.contains "--no-input") with hn | hn <;>
    simp only [buildTestArgs] <;>
    rw [h1 "-v" (by decide), h1 "--verbose" (by decide), hv] <;>
    simp only [Bool.not_false, Bool.not_true, Bool.false_eq_true, eq_self_iff_true,
      if_false, if_true] <;>
    first
      | (rw [contains_append_singletons _ "-v" "2" "--noinput",
           contains_append_singletons _ "-v" "2" "--no-input", e1, e2, e3, e4,
           Bool.or_false, Bool.or_false, Bool.or_false, Bool.or_false,
           h1 "--noinput" (by decide), h1 "--no-input" (by decide), hn]
         simp)
      | (rw [h1 "--noinput" (by decide), h1 "--no-input" (by decide), hn]
         simp)

/-- C7: for every resolved argument list (ad-hoc arguments when non-empty,
otherwise the active profile's arguments, otherwise empty), the command
builder appends the verbosity flag `-v 2` exactly when the resolved list
contains neither `-v` nor `--verbose`; when one of them is present, no
verbosity flag is added (the final list is the buffer-filtered list plus at
most the forced `--noinput`). -/
theorem builder_forces_verbosity (configArgs : List String)
    (profiles : List (String × List String)) (activeProfile : String) :
    buildTestArgs (resolveRunArgs configArgs profiles activeProfile) =
      (((resolveRunArgs configArgs profiles activeProfile).filter
          (fun a => !(a == "--buffer" || a == "-b"))) ++
        (if (resolveRunArgs configArgs profiles activeProfile).contains "-v" ||
            (resolveRunArgs configArgs profiles activeProfile).contains "--verbose"
         then [] else ["-v", "2"])) ++
      (if (resolveRunArgs configArgs profiles activeProfile).contains "--noinput" ||
          (resolveRunArgs configArgs profiles activeProfile).contains "--no-input"
       then [] else ["--noinput"]) :=
  buildTestArgs_char (resolveRunArgs configArgs profiles activeProfile)

theorem contains_append_distrib (l1 l2 : List String) (a : String) :
    (l1 ++ l2).contains a = (l1.contains a || l2.contains a) := by
  induction l1 with
  | nil =>
    rw [List.nil_append]
    show l2.contains a = (false || l2.contains a)
    rw [Bool.false_or]
  | cons c cs ih =>
    rw [List.cons_append, List.contains_cons, ih, List.contains_cons]
    cases a == c <;> cases cs.contains a <;> cases l2.contains a <;> rfl

theorem contains_filter_of_not (l : List String) (pred : String → Bool) (a : String)
    (ha : pred a = false) :
    (l.filter pred).contains a = false := by
  induction l with
  | nil => rfl
  | cons x xs ih =>
    rw [List.filter_cons]
    by_cases hx : pred x = true
    · rw [if_pos hx, List.contains_cons, ih]
      have hax : (a == x) = false := by
        by_cases haxx : a = x
        · rw [haxx, hx] at ha
          exact absurd ha (by simp)
        · exact beq_false_of_ne haxx
      rw [hax]
      rfl
    · rw [if_neg hx, ih]

/-- C9: every built invocation's final argument list has any `--buffer`/`-b`
removed and always carries a no-input flag: when the resolved list contains
neither `--noinput` nor `--no-input`, `--noinput` is appended (it is the last
argument); otherwise the resolved flag itself is kept. -/
theorem builder_forces_noinput (configArgs : List String)
    (profiles : List (String × List String)) (activeProfile : String) :
    (buildTestArgs (resolveRunArgs configArgs profiles activeProfile)).contains "--buffer"
        = false ∧
    (buildTestArgs (resolveRunArgs configArgs profiles activeProfile)).contains "-b"
        = false ∧
    ((buildTestArgs (resolveRunArgs configArgs profiles activeProfile)).contains "--noinput" ||
      (buildTestArgs (resolveRunArgs configArgs profiles activeProfile)).contains "--no-input")
        = true ∧
    (((resolveRunArgs configArgs profiles activeProfile).contains "--noinput" ||
        (resolveRunArgs configArgs profiles activeProfile).contains "--no-input") = true ∨
      (buildTestArgs (resolveRunArgs configArgs profiles activeProfile)).getLast? =
        some "--noinput") := by
  have habsent : ∀ a : String, (!(a == "--buffer" || a == "-b")) = false →
      (buildTestArgs (resolveRunArgs configArgs profiles activeProfile)).contains a = false := by
    intro a ha
    rw [buildTestArgs_char, contains_append_distrib, contains_append_distrib,
      contains_filter_of_not _ _ a ha]
    have h2 : (if (resolveRunArgs configArgs profiles activeProfile).contains "-v" ||
          (resolveRunArgs configArgs profiles activeProfile).contains "--verbose"
        then ([] : List String) else ["-v", "2"]).contains a = false := by
      split
      · rfl
      · rw [List.contains_cons, List.contains_cons]
        have e1 : (a == "-v") = false := by
          by_cases hx : a = "-v"
          · subst hx
            exact absurd ha (by decide)
          · exact beq_false_of_ne hx
        have e2 : (a == "2") = false := by
          by_cases hx : a = "2"
          · subst hx
            exact absurd ha (by decide)
          · exact beq_false_of_ne hx
        rw [e1, e2]
        rfl
    have h3 : (if (resolveRunArgs configArgs profiles activeProfile).contains "--noinput" ||
          (resolveRunArgs configArgs profiles activeProfile).contains "--no-input"
        then ([] : List String) else ["--noinput"]).contains a = false := by
      split
      · rfl
      · rw [List.contains_cons]
        have e1 : (a == "--noinput") = false := by
          by_cases hx : a = "--noinput"
          · subst hx
            exact absurd ha (by decide)
          · exact beq_false_of_ne hx
        rw [e1]
        rfl
    rw [h2, h3]
    rfl
  refine ⟨habsent "--buffer" (by decide), habsent "-b" (by decide), ?_, ?_⟩
  · by_cases hn : ((resolveRunArgs configArgs profiles activeProfile).contains "--noinput" ||
        (resolveRunArgs configArgs profiles activeProfile).contains "--no-input") = true
    · rw [buildTestArgs_char, contains_append_distrib, contains_append_distrib,
        contains_append_distrib, contains_append_distrib,
        contains_filter_of_pred _ _ "--noinput" (by decide),
        contains_filter_of_pred _ _ "--no-input" (by decide)]
      rcases Bool.or_eq_true_iff.mp hn with h | h
      · rw [h]
        simp
      · rw [h]
        simp
    · have hn' : ((resolveRunArgs configArgs profiles activeProfile).contains "--noinput" ||
          (resolveRunArgs configArgs profiles activeProfile).contains "--no-input") = false :=
        Bool.eq_false_iff.mpr hn
      rw [buildTestArgs_char, hn']
      simp only [Bool.false_eq_true, if_false]
      rw [contains_append_distrib, List.contains_cons]
      simp
  · by_cases hn : ((resolveRunArgs configArgs profiles activeProfile).contains "--noinput" ||
        (resolveRunArgs configArgs profiles activeProfile).contains "--no-input") = true
    · exact Or.inl hn
    · right
      have hn' : ((resolveRunArgs configArgs profiles activeProfile).contains "--noinput" ||
          (resolveRunArgs configArgs profiles activeProfile).contains "--no-input") = false :=
        Bool.eq_false_iff.mpr hn
      rw [buildTestArgs_char, hn']
      simp only [Bool.false_eq_true, if_false]
      exact List.getLast?_concat _

/-- Excluded path segments of `WatchModeManager.isExcluded`
(`watchMode.ts` lines 134-146). -/
def watchExcludePatterns : List String :=
  ["__pycache__", ".venv", "venv", ".git", "migrations", ".pyc", "__init__.py"]

/-- Model of `WatchModeManager.isExcluded`: substring test of every excluded
pattern against the relative path. -/
def isExcluded (relativePath : String) : Bool :=
  watchExcludePatterns.any (fun pat => containsSub pat.data relativePath.data)

/-- Observable watch-mode state: the pending changed-file set (a JavaScript
`Set`, modelled as a duplicate-free insertion-ordered list), whether the
single debounce timer slot is armed, and how many affected-test runs (drains
of the pending set by `runTestsForChangedFiles`) have been triggered. -/
structure WatchState : Type where
  changedFiles : List String
  timerArmed : Bool
  runsTriggered : Nat
deriving DecidableEq, Repr

/-- Set insertion (`this.changedFiles.add(uri.fsPath)`). -/
def addChangedFile (s : List String) (x : String) : List String :=
  if s.contains x then s else s ++ [x]

/-- Model of `WatchModeManager.onFileChange` (`watchMode.ts` lines 108-129):
excluded paths are ignored; otherwise the path joins the pending set and the
debounce timer is (re)armed — clearing any previous timer, so at most one
timer exists. -/
def onFileChange (st : WatchState) (path : String) : WatchState :=
  if isExcluded path then st
  else
    { changedFiles := addChangedFile st.changedFiles path,
      timerArmed := true,
      runsTriggered := st.runsTriggered }

/-- Firing of the armed debounce timer: `runTestsForChangedFiles` returns
immediately on an empty set, otherwise drains the whole set at once and
triggers one affected-test run. -/
def fireDebounceTimer (st : WatchState) : WatchState :=
  if st.timerArmed then
    if st.changedFiles.isEmpty then { st with timerArmed := false }
    else
      { changedFiles := [], timerArmed := false, runsTriggered := st.runsTriggered + 1 }
  else st

/-- Events of the watch-mode state machine. -/
inductive WatchEvent : Type where
  | change (path : String)
  | fire
deriving DecidableEq, Repr

/-- Event application. -/
def watchStep (st : WatchState) : WatchEvent → WatchState
  | .change path => onFileChange st path
  | .fire => fireDebounceTimer st

/-- Run of a sequence of watch events. -/
def runWatch (st : WatchState) (evts : List WatchEvent) : WatchState :=
  evts.foldl watchStep st

theorem addChangedFile_ne_nil (l : List String) (x : String) : addChangedFile l x ≠ [] := by
  unfold addChangedFile
  split
  · intro h
    subst h
    simp_all
  · intro h
    exact absurd h (by simp)

/-- C8: with watch mode enabled (timer idle, empty pending set), three
file-change events to non-excluded paths within one debounce window — i.e.
with no timer firing in between — leave exactly one armed timer and one
pending set accumulating the three paths, and the subsequent single timer
firing triggers exactly one affected-test run (not three) while draining the
set. -/
theorem watch_debounce_single_run (st : WatchState) (p1 p2 p3 : String)
    (hempty : st.changedFiles = []) (htimer : st.timerArmed = false)
    (he1 : isExcluded p1 = false) (he2 : isExcluded p2 = false)
    (he3 : isExcluded p3 = false) :
    (runWatch st [.change p1, .change p2, .change p3]).timerArmed = true ∧
    (runWatch st [.change p1, .change p2, .change p3]).changedFiles =
      addChangedFile (addChangedFile (addChangedFile [] p1) p2) p3 ∧
    (runWatch st [.change p1, .change p2, .change p3]).runsTriggered = st.runsTriggered ∧
    (runWatch st [.change p1, .change p2, .change p3, .fire]).runsTriggered =
      st.runsTriggered + 1 ∧
    (runWatch st [.change p1, .change p2, .change p3, .fire]).changedFiles = [] ∧
    (runWatch st [.change p1, .change p2, .change p3, .fire]).timerArmed = false := by
  have hstep : runWatch st [.change p1, .change p2, .change p3] =
      { changedFiles := addChangedFile (addChangedFile (addChangedFile [] p1) p2) p3,
        timerArmed := true, runsTriggered := st.runsTriggered } := by
    show watchStep (watchStep (watchStep st (.change p1)) (.change p2)) (.change p3) = _
    simp [watchStep, onFileChange, he1, he2, he3, hempty]
  have hfire : runWatch st [.change p1, .change p2, .change p3, .fire] =
      fireDebounceTimer
        { changedFiles := addChangedFile (addChangedFile (addChangedFile [] p1) p2) p3,
          timerArmed := true, runsTriggered := st.runsTriggered } := by
    show watchStep (watchStep (watchStep (watchStep st (.change p1)) (.change p2))
      (.change p3)) .fire = _
    rw [show watchStep (watchStep (watchStep st (.change p1)) (.change p2)) (.change p3) =
      runWatch st [.change p1, .change p2, .change p3] from rfl, hstep]
    rfl
  have hnonempty : (addChangedFile (addChangedFile (addChangedFile [] p1) p2) p3).isEmpty
      = false :=
    List.isEmpty_eq_false.mpr (addChangedFile_ne_nil _ _)
  refine ⟨by rw [hstep], by rw [hstep], by rw [hstep], ?_, ?_, ?_⟩ <;>
    rw [hfire, fireDebounceTimer] <;>
    simp [hnonempty]

/-- Idle enabled watch state used to witness `watch_debounce_single_run`. -/
def w8State : WatchState := ⟨[], false, 0⟩

/-- Witness for `watch_debounce_single_run`: three Python source files
changed in one debounce window. -/
theorem watch_debounce_single_run_witness :
    (w8State.changedFiles = [] ∧ w8State.timerArmed = false ∧
      isExcluded "app/models.py" = false ∧ isExcluded "app/views.py" = false ∧
      isExcluded "app/forms.py" = false) ∧
    ((runWatch w8State [.change "app/models.py", .change "app/views.py",
        .change "app/forms.py"]).timerArmed = true ∧
    (runWatch w8State [.change "app/models.py", .change "app/views.py",
        .change "app/forms.py"]).changedFiles =
      addChangedFile (addChangedFile (addChangedFile [] "app/models.py") "app/views.py")
        "app/forms.py" ∧
    (runWatch w8State [.change "app/models.py", .change "app/views.py",
        .change "app/forms.py"]).runsTriggered = w8State.runsTriggered ∧
    (runWatch w8State [.change "app/models.py", .change "app/views.py",
        .change "app/forms.py", .fire]).runsTriggered = w8State.runsTriggered + 1 ∧
    (runWatch w8State [.change "app/models.py", .change "app/views.py",
        .change "app/forms.py", .fire]).changedFiles = [] ∧
    (runWatch w8State [.change "app/models.py", .change "app/views.py",
        .change "app/forms.py", .fire]).timerArmed = false) :=
  ⟨⟨rfl, rfl, by decide, by decide, by decide⟩,
    watch_debounce_single_run w8State "app/models.py" "app/views.py" "app/forms.py"
      rfl rfl (by decide) (by decide) (by decide)⟩
